import Mathlib

/-!
Shallow embedding of the minigroup post-processing pipeline of the
`dispatcher` service (`src/app/postprocessing_strategy/minigroup.rs`).

Modelling conventions:
* Machine integers (`i64`) become `Int`; millisecond wall-clock instants and
  millisecond offsets are plain `Int` values.  `u64` nanosecond event times
  become `Nat`; the source casts them to `i64` before dividing by
  `NS_IN_MS`, which agrees with `Nat` division for every value below `2^63`
  (the cast is assumed non-wrapping, as nanosecond timestamps are).
* `Bound<i64>` becomes the inductive `SegBound`; a `Segments` value is the
  list of bound pairs exactly as in `db::recording::Segments`.
* The side effects of each handler (database writes and external calls) are
  reified as a trace of `Effect` values returned next to the
  `Except`-encoded result, in the order the source issues them.
* UUIDs are modelled as `Nat`, agent/account ids and URIs as `String`.
-/

namespace Dispatcher

/-- Embedding of `std::ops::Bound<i64>` as used for segment endpoints and room times. -/
inductive SegBound where
  | included (v : Int)
  | excluded (v : Int)
  | unbounded
deriving DecidableEq, Repr

/-- One element of `db::recording::Segments`: a pair of bounds. -/
abbrev Segment := SegBound × SegBound

/-- Embedding of `db::recording::Segments` (`BoundedOffsetTuples`): ordered bound pairs. -/
abbrev Segments := List Segment

/-- Constant `NS_IN_MS` from `minigroup.rs`. -/
def NS_IN_MS : Nat := 1000000

/-- Constant `PREROLL_OFFSET` from `minigroup.rs`. -/
def PREROLL_OFFSET : Int := 4018

/-- A `pin` event fetched from the event service: `occurred_at` is the
event-room-relative time in nanoseconds (`u64`), `agentId` the pinned
participant (`EventData::Pin(PinEventData { agent_id })`). -/
structure PinEvent where
  occurredAt : Nat
  agentId : String
deriving DecidableEq, Repr

/-- A `db::recording::Object` row (the fields the pipeline reads/writes). -/
structure Recording where
  classId : Nat
  rtcId : Nat
  streamUri : String
  startedAt : Int
  segments : Segments
  createdBy : String
  transcodedAt : Option Int
deriving DecidableEq, Repr

/-- A `db::class::Object` minigroup row (the fields the pipeline reads). -/
structure Class where
  id : Nat
  scope : String
  audience : String
  tags : Option String
  host : Option String
  eventRoomId : Nat
deriving DecidableEq, Repr

/-- One uploaded ready track (`RtcUploadReadyData`). -/
structure RtcUploadReadyData where
  id : Nat
  uri : String
  startedAt : Int
  segments : Segments
  createdBy : String
deriving DecidableEq, Repr

/-- The event-room offset of a recording:
`recording.started_at() - modified_event_room_opened_at` in milliseconds. -/
def eventRoomOffsetMs (startedAt openedAt : Int) : Int :=
  startedAt - openedAt

/-- Translation of a pin event's occurrence time into the recording's own
coordinate: `event.occurred_at() as i64 / NS_IN_MS - event_room_offset`. -/
def translatedTime (offset : Int) (ev : PinEvent) : Int :=
  ((ev.occurredAt / NS_IN_MS : Nat) : Int) - offset

/-- One step of the forward pass over pin events in `build_stream`:
state is the emitted pin segments so far and the optional open `pin_start`. -/
def pinStep (creator : String) (offset : Int)
    (st : List (Int × Int) × Option Int) (ev : PinEvent) :
    List (Int × Int) × Option Int :=
  let occurredAt := translatedTime offset ev
  if ev.agentId == creator && st.2.isNone then
    (st.1, some occurredAt)
  else
    match st.2 with
    | some pinnedAt => (st.1 ++ [(pinnedAt, occurredAt)], none)
    | none => st

/-- The whole forward pass of `build_stream` over the pin events. -/
def pinPass (creator : String) (offset : Int) (events : List PinEvent) :
    List (Int × Int) × Option Int :=
  events.foldl (pinStep creator offset) ([], none)

/-- Pin segments of one recording, including the trailing closure: if a pin
is still open after the pass it is closed at the `Excluded` stop of the
recording's last recorded segment, and dropped if there is none. -/
def buildPinSegments (recording : Recording) (events : List PinEvent)
    (offset : Int) : List (Int × Int) :=
  match pinPass recording.createdBy offset events with
  | (segs, some start) =>
    match recording.segments.getLast? with
    | some (_, SegBound.excluded recordingEnd) => segs ++ [(start, recordingEnd)]
    | _ => segs
  | (segs, none) => segs

/-- Embedding of `TranscodeMinigroupToHlsStream`: the stream binding sent to the
transcoding task.  The source stores the offset as `u64` after
`num_milliseconds() as u64`; the value is kept as `Int` here (it is proved
non-negative where the pipeline computes it). -/
structure HlsStream where
  rtcId : Nat
  uri : String
  offset : Int
  segments : Segments
  pinSegments : Segments
deriving DecidableEq, Repr

/-- Function `build_stream` from `minigroup.rs`. -/
def build_stream (recording : Recording) (pinEvents : List PinEvent)
    (eventRoomOffset recordingOffset : Int) : HlsStream :=
  { rtcId := recording.rtcId
    uri := recording.streamUri
    offset := recordingOffset
    segments := recording.segments
    pinSegments :=
      (buildPinSegments recording pinEvents eventRoomOffset).map
        (fun p => (SegBound.included p.1, SegBound.excluded p.2)) }

/-- One comparison step of `min_by` on `started_at`: keeps the earlier
recording, preferring the accumulator on ties (Rust's `min_by` returns the
first minimal element). -/
def minByStep (acc : Option Recording) (r : Recording) : Option Recording :=
  match acc with
  | none => some r
  | some m => if r.startedAt < m.startedAt then some r else some m

/-- Embedding of `recordings.iter().min_by(|a, b| a.started_at().cmp(&b.started_at()))`:
the first recording with minimal `started_at`. -/
def minByStartedAt (recordings : List Recording) : Option Recording :=
  recordings.foldl minByStep none

/-- The stream bindings computed in `handle_adjust`:
`event_room_offset = recording.started_at() - modified_event_room_opened_at`,
`recording_offset = recording.started_at() - earliest_recording.started_at()`. -/
def buildStreams (pinEvents : List PinEvent) (openedAt : Int)
    (earliest : Recording) (recordings : List Recording) : List HlsStream :=
  recordings.map
    (fun r =>
      build_stream r pinEvents (eventRoomOffsetMs r.startedAt openedAt)
        (r.startedAt - earliest.startedAt))

/-- Computation of `host_stream_id`: the rtc id of the recording whose creator's account id
is the class host. -/
def hostStreamId (host : Option String) (recordings : List Recording) :
    Option Nat :=
  host.bind
    (fun h => (recordings.find? (fun r => r.createdBy == h)).map (·.rtcId))

/-- The running-minimum update of `build_adjust_segments` for
`maybe_min_start`. -/
def optMin (m : Option Int) (s : Int) : Option Int :=
  match m with
  | some v => if s < v then some s else some v
  | none => some s

/-- The running-maximum update of `build_adjust_segments` for
`maybe_max_stop`. -/
def optMax (m : Option Int) (s : Int) : Option Int :=
  match m with
  | some v => if s > v then some s else some v
  | none => some s

/-- The start of a track's first segment, when it is an `Included` bound
(the pattern `segments.first()` is matched against in the source). -/
def firstStart? (rtc : RtcUploadReadyData) : Option Int :=
  match rtc.segments.head? with
  | some (SegBound.included s, _) => some s
  | _ => none

/-- The stop of a track's last segment, when it is an `Excluded` bound. -/
def lastStop? (rtc : RtcUploadReadyData) : Option Int :=
  match rtc.segments.getLast? with
  | some (_, SegBound.excluded s) => some s
  | _ => none

/-- One iteration of the `for rtc in rtcs.iter()` loop of
`build_adjust_segments`. -/
def adjustFoldStep (acc : Option Int × Option Int) (rtc : RtcUploadReadyData) :
    Option Int × Option Int :=
  ( match firstStart? rtc with
    | some s => optMin acc.1 s
    | none => acc.1
  , match lastStop? rtc with
    | some s => optMax acc.2 s
    | none => acc.2 )

/-- Function `build_adjust_segments` from `minigroup.rs`. -/
def build_adjust_segments (rtcs : List RtcUploadReadyData) :
    Except String Segments :=
  match rtcs.foldl adjustFoldStep (none, none) with
  | (some start, some stop) =>
    Except.ok [(SegBound.included start, SegBound.excluded stop)]
  | _ => Except.error "Could not find min start and max stop in segments"

/-- Reified side effects (database writes and external calls) of the
pipeline handlers, in the order the source issues them. -/
inductive Effect where
  | insertRecordings (classId : Nat) (rtcs : List RtcUploadReadyData)
  | adjustRoom (roomId : Nat) (startedAt : Int) (segments : Segments)
      (offset : Int)
  | updateClass (classId originalRoomId modifiedRoomId : Nat)
  | adjustRecordings (classId : Nat)
  | readRoom (roomId : Nat)
  | listEvents (roomId : Nat) (kind : String)
  | createTask (classId : Nat) (streams : List HlsStream)
      (hostStream : Option Nat)
  | updateTranscoding (classId : Nat)
  | publish (topic : String) (label : String)
deriving DecidableEq, Repr

/-- Whether an effect is a transcoding-task submission. -/
def Effect.isCreateTask : Effect → Bool
  | Effect.createTask _ _ _ => true
  | _ => false

/-- Whether an `Except` outcome is a failure. -/
def isErr {α : Type} : Except String α → Bool
  | Except.error _ => true
  | Except.ok _ => false

/-- The minimal `started_at` over the uploaded tracks, used as the adjust
call's anchor (`rtcs.iter().map(started_at).min()`). -/
def minStartedAt (rtcs : List RtcUploadReadyData) : Option Int :=
  (rtcs.map (·.startedAt)).foldl
    (fun acc s =>
      match acc with
      | none => some s
      | some v => if s < v then some s else some v)
    none

/-- Function `handle_upload` from `minigroup.rs`, over already-extracted ready
tracks.  `adjustOk` stands for the outcome of the external
`adjust_room` call.  The single `insertRecordings` effect is the one
committed insert transaction (all rows or none). -/
def handle_upload (minigroup : Class) (rtcs : List RtcUploadReadyData)
    (adjustOk : Bool) : List Effect × Except String Unit :=
  if rtcs.isEmpty then
    ([], Except.error "Expected at least 1 RTC")
  else
    let t1 := [Effect.insertRecordings minigroup.id rtcs]
    match minStartedAt rtcs with
    | none => (t1, Except.error "Could not get min started at")
    | some startedAt =>
      match build_adjust_segments rtcs with
      | Except.error e => (t1, Except.error e)
      | Except.ok segments =>
        let t2 := t1 ++
          [Effect.adjustRoom minigroup.eventRoomId startedAt segments
            PREROLL_OFFSET]
        (t2, if adjustOk then Except.ok () else
          Except.error "Failed to adjust room")

/-- Embedding of `RoomAdjustResult` (untagged in the source wire format, decoded into a
tagged union here: the error payload is kept as a string). -/
inductive RoomAdjustResult where
  | success (originalRoomId modifiedRoomId : Nat) (modifiedSegments : Segments)
  | error (e : String)
deriving DecidableEq, Repr

/-- The responses of the collaborators `handle_adjust` consults:
the class row returned by `UpdateQuery`, the recordings returned by
`AdjustMinigroupUpdateQuery`, the modified event room's time, the pin
events, and the outcome of the transcoding-task submission. -/
structure AdjustEnv where
  updatedClass : Class
  recordings : List Recording
  modifiedRoomTime : SegBound × SegBound
  pinEvents : List PinEvent
  tqOk : Bool
deriving Repr

/-- Function `handle_adjust` from `minigroup.rs`. -/
def handle_adjust (minigroup : Class) (env : AdjustEnv)
    (result : RoomAdjustResult) : List Effect × Except String Unit :=
  match result with
  | RoomAdjustResult.success originalRoomId modifiedRoomId _ =>
    let t1 := [Effect.updateClass minigroup.id originalRoomId modifiedRoomId,
               Effect.adjustRecordings minigroup.id]
    match minByStartedAt env.recordings with
    | none => (t1, Except.error "No recordings")
    | some earliest =>
      let t2 := t1 ++ [Effect.readRoom modifiedRoomId]
      match env.modifiedRoomTime.1 with
      | SegBound.included openedAt =>
        let t3 := t2 ++ [Effect.listEvents modifiedRoomId "pin"]
        let streams := buildStreams env.pinEvents openedAt earliest
          env.recordings
        let host := hostStreamId env.updatedClass.host env.recordings
        let t4 := t3 ++ [Effect.createTask minigroup.id streams host]
        (t4, if env.tqOk then Except.ok () else
          Except.error "TqClient create task failed")
      | _ => (t2, Except.error "Wrong event room opening time")
  | RoomAdjustResult.error e =>
    ([], Except.error ("Adjust failed, err = " ++ e))

/-- Value of a digit string as a natural number (`none` on a non-digit). -/
def digitsVal? (cs : List Char) : Option Nat :=
  cs.foldl
    (fun acc c =>
      match acc with
      | none => none
      | some n => if c.isDigit then some (n * 10 + (c.toNat - 48)) else none)
    (some 0)

/-- Exact decimal reading of `duration_string.parse::<f64>()` for the plain
decimal strings the transcoding service sends: the result is
`(intPart, fracDigitsValue, fracDigitCount)`, denoting
`intPart + fracDigitsValue / 10 ^ fracDigitCount`.  Such values are parsed
exactly by Rust whenever they are representable in an `f64` (as the
pipeline's short duration strings are); signs and exponents are not used
by the service and are rejected here. -/
def parseDecimal (s : String) : Option (Nat × Nat × Nat) :=
  match (s.toList.splitOn '.').map digitsVal? with
  | [some n] => if s.isEmpty then none else some (n, 0, 0)
  | [some n, some f] =>
    if s.toList.length == 1 then none
    else some (n, f, ((s.toList.splitOn '.').getD 1 []).length)
  | _ => none

/-- Embedding of `f64::round` (half away from zero) followed by `as u64`, on the exact
non-negative decimal value `n + f / 10 ^ k`. -/
def roundDecimal (v : Nat × Nat × Nat) : Nat :=
  if 2 * v.2.1 ≥ 10 ^ v.2.2 then v.1 + 1 else v.1

/-- The `MinigroupReady` broadcast payload. -/
structure MinigroupReady where
  id : Nat
  scope : String
  tags : Option String
  status : String
  recordingDuration : Nat
deriving DecidableEq, Repr

/-- Embedding of `TaskCompleteResult` for a minigroup: transcoding succeeded with a
duration string, succeeded with an unexpected template, or failed. -/
inductive TaskCompleteResult where
  | success (recordingDuration : String)
  | successUnexpected
  | failure (e : String)
deriving DecidableEq, Repr

/-- The audience-level event topic path of a class. -/
def audienceTopic (minigroup : Class) : String :=
  "audiences/" ++ minigroup.audience ++ "/events"

/-- The published `minigroup.ready` payload for a parsed duration. -/
def readyPayload (minigroup : Class) (v : Nat × Nat × Nat) : MinigroupReady :=
  { id := minigroup.id
    scope := minigroup.scope
    tags := minigroup.tags
    status := "success"
    recordingDuration := roundDecimal v }

/-- Function `handle_transcoding_completion` from `minigroup.rs`.  The publish
effect records the topic and event label; the payload is `readyPayload`. -/
def handle_transcoding_completion (minigroup : Class)
    (result : TaskCompleteResult) :
    List Effect × Except String Unit × Option MinigroupReady :=
  match result with
  | TaskCompleteResult.success d =>
    match parseDecimal d with
    | none => ([], Except.error "invalid float literal", none)
    | some v =>
      ([Effect.updateTranscoding minigroup.id,
        Effect.publish (audienceTopic minigroup) "minigroup.ready"],
       Except.ok (), some (readyPayload minigroup v))
  | TaskCompleteResult.successUnexpected =>
    ([], Except.error "Got transcoding success for an unexpected tq template",
     none)
  | TaskCompleteResult.failure e =>
    ([], Except.error ("Transcoding failed: " ++ e), none)

/-- Modelled from the spec: the repository semantics of the queries the
pipeline issues (`db/recording.rs` is not part of the sources at hand —
only its call sites are).  `RecordingInsertQuery` inserts one row per
uploaded track; `TranscodingUpdateQuery` marks every recording of the
class transcoded.  Effects that are reads or external calls leave the
stored rows unchanged. -/
def applyEffect (now : Int) (db : List Recording) : Effect → List Recording
  | Effect.insertRecordings classId rtcs =>
    db ++ rtcs.map
      (fun rtc =>
        { classId := classId
          rtcId := rtc.id
          streamUri := rtc.uri
          startedAt := rtc.startedAt
          segments := rtc.segments
          createdBy := rtc.createdBy
          transcodedAt := none })
  | Effect.updateTranscoding classId =>
    db.map
      (fun r =>
        if r.classId = classId then { r with transcodedAt := some now } else r)
  | _ => db

/-- The stored recordings after a handler's effect trace runs. -/
def applyTrace (now : Int) (db : List Recording) (tr : List Effect) :
    List Recording :=
  tr.foldl (applyEffect now) db

/-- The projection of a normal segment list (every bound pair of the form
`[Included start, Excluded stop)`) to its endpoint pairs. -/
def toPairs (segs : Segments) : Option (List (Int × Int)) :=
  segs.mapM
    (fun p =>
      match p with
      | (SegBound.included a, SegBound.excluded b) => some (a, b)
      | _ => none)

/-- The Segment Set invariant: normal bounds, sorted ascending and
non-overlapping, each stop at least its start. -/
def SegmentSetInv (segs : Segments) : Prop :=
  ∃ l, toPairs segs = some l ∧
    List.Pairwise (fun p q : Int × Int => p.2 ≤ q.1) l ∧
    ∀ p ∈ l, p.1 ≤ p.2

/-- Whether a segment has the normal `[Included start, Excluded stop)` shape
every producer in this codebase emits. -/
def isNormal (p : Segment) : Bool :=
  match p with
  | (SegBound.included _, SegBound.excluded _) => true
  | _ => false

/-- The starts of the tracks' first segments considered by
`build_adjust_segments` (tracks without segments are skipped). -/
def firstStarts (rtcs : List RtcUploadReadyData) : List Int :=
  rtcs.filterMap firstStart?

/-- The stops of the tracks' last segments considered by
`build_adjust_segments`. -/
def lastStops (rtcs : List RtcUploadReadyData) : List Int :=
  rtcs.filterMap lastStop?

/-- The invariant maintained by the forward pass of `build_stream`:
all emitted segments are strict, sorted and non-overlapping, every stop is
at most the bound `b` (the last processed event time), and an open pin was
opened no later than `b`, strictly before the recording end `E`, and after
every emitted stop. -/
def pinInv (E b : Int) (st : List (Int × Int) × Option Int) : Prop :=
  (∀ p ∈ st.1, p.1 < p.2) ∧
  List.Pairwise (fun p q : Int × Int => p.2 ≤ q.1) st.1 ∧
  (∀ p ∈ st.1, p.2 ≤ b) ∧
  ∀ s, st.2 = some s → s ≤ b ∧ s < E ∧ ∀ p ∈ st.1, p.2 ≤ s

section Fixtures

/-- Concrete recording of the worked example: created by `A`, recorded span
`[0, 3_000_000)` ms. -/
def recA : Recording :=
  { classId := 1, rtcId := 10, streamUri := "s3://bucket/rtc1.webm",
    startedAt := 0,
    segments := [(SegBound.included 0, SegBound.excluded 3000000)],
    createdBy := "A", transcodedAt := none }

/-- Second concrete recording, started 600_000 ms later. -/
def recB : Recording :=
  { classId := 1, rtcId := 20, streamUri := "s3://bucket/rtc2.webm",
    startedAt := 600000,
    segments := [(SegBound.included 0, SegBound.excluded 2700000)],
    createdBy := "B", transcodedAt := none }

/-- The pin events of the worked example (nanosecond times). -/
def evsA : List PinEvent :=
  [⟨0, "A"⟩, ⟨1200000000000, "B"⟩, ⟨1500000000000, "A"⟩]

/-- Uploaded track with segments `[(0, 1_500_000), (1_800_000, 3_000_000)]`. -/
def rtcU1 : RtcUploadReadyData :=
  { id := 11, uri := "s3://bucket/rtc1.webm", startedAt := 0,
    segments := [(SegBound.included 0, SegBound.excluded 1500000),
                 (SegBound.included 1800000, SegBound.excluded 3000000)],
    createdBy := "A" }

/-- Uploaded track with segments `[(0, 2_700_000)]`. -/
def rtcU2 : RtcUploadReadyData :=
  { id := 12, uri := "s3://bucket/rtc2.webm", startedAt := 600000,
    segments := [(SegBound.included 0, SegBound.excluded 2700000)],
    createdBy := "B" }

/-- Concrete minigroup class row. -/
def mgA : Class :=
  { id := 7, scope := "minigroup123", audience := "usr.example.org",
    tags := some "tags", host := some "A", eventRoomId := 3 }

/-- The Recording row `handle_upload` persists for `rtcU1` on `mgA`. -/
def rowU1 : Recording :=
  { classId := 7, rtcId := 11, streamUri := "s3://bucket/rtc1.webm",
    startedAt := 0,
    segments := [(SegBound.included 0, SegBound.excluded 1500000),
                 (SegBound.included 1800000, SegBound.excluded 3000000)],
    createdBy := "A", transcodedAt := none }

/-- Adjust environment whose modified room has an `Unbounded` opening time. -/
def envU : AdjustEnv :=
  { updatedClass := mgA, recordings := [recA, recB],
    modifiedRoomTime := (SegBound.unbounded, SegBound.unbounded),
    pinEvents := evsA, tqOk := true }

/-- Adjust environment with an `Included` opening time anchor. -/
def envI : AdjustEnv :=
  { updatedClass := mgA, recordings := [recA, recB],
    modifiedRoomTime := (SegBound.included 0, SegBound.unbounded),
    pinEvents := evsA, tqOk := true }

/-- A lone pin event whose translated time is exactly the recording end. -/
def evEnd : PinEvent := ⟨3000000000000, "A"⟩

end Fixtures

instance (segs : Segments) : Decidable (SegmentSetInv segs) := by
  unfold SegmentSetInv
  exact
    match toPairs segs with
    | some l => decidable_of_iff
        (List.Pairwise (fun p q : Int × Int => p.2 ≤ q.1) l ∧ ∀ p ∈ l, p.1 ≤ p.2)
        (by constructor
            · rintro ⟨h1, h2⟩; exact ⟨l, rfl, h1, h2⟩
            · rintro ⟨l2, hl2, h1, h2⟩
              cases hl2; exact ⟨h1, h2⟩)
    | none => isFalse (by rintro ⟨l, hl, _⟩; cases hl)

/-! ## Theorems -/

/-- C5: for every class, environment and error payload, `handle_adjust` on
an `Error` result returns a failure with an empty effect trace: no Class or
Recording row is mutated and no transcoding task is submitted. -/
theorem handle_adjust_error_is_pure (m : Class) (env : AdjustEnv)
    (e : String) :
    (handle_adjust m env (RoomAdjustResult.error e)).1 = [] ∧
    (handle_adjust m env (RoomAdjustResult.error e)).2 =
      Except.error ("Adjust failed, err = " ++ e) ∧
    (∀ db now, applyTrace now db
      (handle_adjust m env (RoomAdjustResult.error e)).1 = db) ∧
    ((handle_adjust m env
      (RoomAdjustResult.error e)).1.all (fun ef => !ef.isCreateTask)) = true := by
  refine ⟨rfl, rfl, fun db now => rfl, rfl⟩

/-- C9: for every recording whose Segment Set satisfies the sorted,
non-overlapping invariant, `build_stream` over an empty pin-event list
yields an empty pin-segment set. -/
theorem build_stream_empty_events (r : Recording) (off roff : Int)
    (h : SegmentSetInv r.segments) :
    (build_stream r [] off roff).pinSegments = [] := by
  cases hp : pinPass r.createdBy off [] with
  | mk segs pin =>
    simp only [pinPass, List.foldl_nil] at hp
    cases hp
    rfl

/-- C9 witness: the theorem applied to the concrete recording `recA`. -/
theorem build_stream_empty_events_inst :
    SegmentSetInv recA.segments ∧
    (build_stream recA [] 0 0).pinSegments = [] :=
  ⟨by decide, build_stream_empty_events recA 0 0 (by decide)⟩

/-- C4: if a pin is still open after the forward pass, `build_stream`
closes it at the `Excluded` stop of the recording's last recorded segment;
if the recording's Segment Set is empty, the trailing pin is dropped and no
final segment is emitted. -/
theorem build_stream_trailing_pin (r : Recording) (events : List PinEvent)
    (off : Int) (segs : List (Int × Int)) (s : Int)
    (hp : pinPass r.createdBy off events = (segs, some s)) :
    (∀ b e, r.segments.getLast? = some (b, SegBound.excluded e) →
      buildPinSegments r events off = segs ++ [(s, e)]) ∧
    (r.segments = [] → buildPinSegments r events off = segs) := by
  constructor
  · intro b e hl
    unfold buildPinSegments
    rw [hp, hl]
  · intro hseg
    unfold buildPinSegments
    rw [hp, hseg]
    rfl

/-- C4 witness: a single creator pin event on `recA` is closed at the stop
`3_000_000` of its last segment, and on the segmentless variant of the same
recording the trailing pin is dropped. -/
theorem build_stream_trailing_pin_inst :
    buildPinSegments recA [⟨0, "A"⟩] 0 = [] ++ [((0 : Int), (3000000 : Int))] ∧
    buildPinSegments { recA with segments := [] } [⟨0, "A"⟩] 0 = [] :=
  ⟨(build_stream_trailing_pin recA [⟨0, "A"⟩] 0 [] 0 (by decide)).1
      (SegBound.included 0) 3000000 (by decide),
   (build_stream_trailing_pin { recA with segments := [] } [⟨0, "A"⟩] 0 [] 0
      (by decide)).2 rfl⟩

/-- C1: the pin pass of `build_stream` is a single forward fold whose step
opens a pin at the event's translated time when the event names the
recording's creator and no pin is open, and closes the open pin at the
event's translated time whichever participant the event names; on the
worked example (events at 0 ns by A, 1.2e12 ns by B, 1.5e12 ns by A, zero
event-room offset, last recorded stop 3_000_000 ms) it yields exactly
`[(0, 1_200_000), (1_500_000, 3_000_000)]`. -/
theorem pin_pass_step_characterisation (creator : String) (off : Int)
    (st : List (Int × Int) × Option Int) (ev : PinEvent) :
    (ev.agentId = creator → st.2 = none →
      pinStep creator off st ev = (st.1, some (translatedTime off ev))) ∧
    (∀ s, st.2 = some s →
      pinStep creator off st ev = (st.1 ++ [(s, translatedTime off ev)], none)) ∧
    buildPinSegments recA evsA 0 = [(0, 1200000), (1500000, 3000000)] := by
  refine ⟨?_, ?_, by decide⟩
  · intro ha hn
    simp [pinStep, ha, hn]
  · intro s hs
    simp [pinStep, hs]

/-- C1 witness: the step equations instantiated at a concrete creator,
state and event. -/
theorem pin_pass_step_characterisation_inst :
    pinStep "A" 0 ([], none) ⟨0, "A"⟩ = ([], some 0) ∧
    pinStep "A" 0 ([], some 0) ⟨1200000000000, "B"⟩ =
      ([(0, 1200000)], none) := by
  have h1 := (pin_pass_step_characterisation "A" 0 ([], none) ⟨0, "A"⟩).1
    rfl rfl
  have h2 := (pin_pass_step_characterisation "A" 0 ([], some 0)
    ⟨1200000000000, "B"⟩).2.1 0 rfl
  constructor
  · rw [h1]; decide
  · rw [h2]; decide

/-- C3: the time-coordinate translation used by the pipeline maps an
event-room-relative nanosecond time to
`t_ns / 1_000_000 - (recording.started_at - event_room_opened_at)` in the
recording's own milliseconds, and `handle_adjust` fails whenever the
modified event room's opening bound is not `Included`, with no transcoding
task submitted. -/
theorem translator_and_open_bound (startedAt openedAt : Int) (ev : PinEvent)
    (m : Class) (env : AdjustEnv) (o mo : Nat) (sg : Segments) :
    translatedTime (eventRoomOffsetMs startedAt openedAt) ev =
      ((ev.occurredAt / NS_IN_MS : Nat) : Int) - (startedAt - openedAt) ∧
    ((∀ t, env.modifiedRoomTime.1 ≠ SegBound.included t) →
      isErr (handle_adjust m env (RoomAdjustResult.success o mo sg)).2 = true ∧
      ((handle_adjust m env (RoomAdjustResult.success o mo sg)).1.all
        (fun ef => !ef.isCreateTask)) = true) := by
  constructor
  · rfl
  · intro hb
    unfold handle_adjust
    cases hmin : minByStartedAt env.recordings with
    | none => exact ⟨rfl, rfl⟩
    | some earliest =>
      cases ht : env.modifiedRoomTime.1 with
      | included t => exact absurd ht (hb t)
      | excluded t => exact ⟨rfl, rfl⟩
      | unbounded => exact ⟨rfl, rfl⟩

/-- C3 witness: the translation at `t_ns = 1.2e12`, recording started
600_000 ms after the room opened, and `handle_adjust` on the environment
`envU` whose modified room opening time is `Unbounded`. -/
theorem translator_and_open_bound_inst :
    translatedTime (eventRoomOffsetMs 600000 0) ⟨1200000000000, "B"⟩ =
      600000 ∧
    isErr (handle_adjust mgA envU
      (RoomAdjustResult.success 100 200 [])).2 = true ∧
    ((handle_adjust mgA envU (RoomAdjustResult.success 100 200 [])).1.all
      (fun ef => !ef.isCreateTask)) = true := by
  have h := translator_and_open_bound 600000 0 ⟨1200000000000, "B"⟩
    mgA envU 100 200 []
  have h2 := h.2 (fun t ht => by simp [envU] at ht)
  exact ⟨by rw [h.1]; decide, h2.1, h2.2⟩

/-- The fold of `minByStartedAt` started from `some m` yields a recording
no later than `m` and no later than any list element. -/
theorem minByStep_foldl_le (rs : List Recording) :
    ∀ (m e : Recording), rs.foldl minByStep (some m) = some e →
      e.startedAt ≤ m.startedAt ∧ ∀ r ∈ rs, e.startedAt ≤ r.startedAt := by
  induction rs with
  | nil =>
    intro m e h
    simp only [List.foldl_nil, Option.some.injEq] at h
    subst h
    exact ⟨le_refl _, by simp⟩
  | cons r rs ih =>
    intro m e h
    simp only [List.foldl_cons, minByStep] at h
    by_cases hlt : r.startedAt < m.startedAt
    · rw [if_pos hlt] at h
      obtain ⟨h1, h2⟩ := ih r e h
      refine ⟨le_trans h1 (le_of_lt hlt), ?_⟩
      intro x hx
      rcases List.mem_cons.mp hx with hx | hx
      · subst hx; exact h1
      · exact h2 x hx
    · rw [if_neg hlt] at h
      obtain ⟨h1, h2⟩ := ih m e h
      refine ⟨h1, ?_⟩
      intro x hx
      rcases List.mem_cons.mp hx with hx | hx
      · subst hx; exact le_trans h1 (le_of_not_lt hlt)
      · exact h2 x hx

/-- The recording picked by `minByStartedAt` has the minimal `started_at`. -/
theorem minByStartedAt_le (recs : List Recording) (earliest : Recording)
    (hmin : minByStartedAt recs = some earliest) :
    ∀ r ∈ recs, earliest.startedAt ≤ r.startedAt := by
  cases recs with
  | nil => cases hmin
  | cons r rs =>
    unfold minByStartedAt at hmin
    simp only [List.foldl_cons, minByStep] at hmin
    obtain ⟨h1, h2⟩ := minByStep_foldl_le rs r earliest hmin
    intro x hx
    rcases List.mem_cons.mp hx with hx | hx
    · subst hx; exact h1
    · exact h2 x hx

/-- C8: in the stream bindings `handle_adjust` submits, every recording's
`offset_in_session_ms` equals its `started_at` minus the earliest
recording's `started_at`, is never negative, and is `0` for any
earliest-started recording; the transcoding task submitted on the
success path carries exactly these bindings. -/
theorem stream_offset_in_session (pinEvents : List PinEvent) (openedAt : Int)
    (recs : List Recording) (earliest r : Recording) (m : Class)
    (env : AdjustEnv) (o mo : Nat) (sg : Segments)
    (hmin : minByStartedAt recs = some earliest) (hr : r ∈ recs)
    (henv : env.recordings = recs)
    (ht : env.modifiedRoomTime.1 = SegBound.included openedAt)
    (hpe : env.pinEvents = pinEvents) :
    (buildStreams pinEvents openedAt earliest recs).map (·.offset) =
      recs.map (fun x => x.startedAt - earliest.startedAt) ∧
    0 ≤ r.startedAt - earliest.startedAt ∧
    (r.startedAt = earliest.startedAt →
      r.startedAt - earliest.startedAt = 0) ∧
    Effect.createTask m.id (buildStreams pinEvents openedAt earliest recs)
        (hostStreamId env.updatedClass.host recs) ∈
      (handle_adjust m env (RoomAdjustResult.success o mo sg)).1 := by
  refine ⟨?_, ?_, ?_, ?_⟩
  · simp [buildStreams, build_stream]
  · exact sub_nonneg.mpr (minByStartedAt_le recs earliest hmin r hr)
  · intro he; rw [he]; exact sub_self _
  · unfold handle_adjust
    rw [henv, hmin, ht, hpe]
    simp

/-- C8 witness: the offsets over the concrete recordings `recA` (earliest,
offset 0) and `recB` (offset 600_000) inside `handle_adjust` on `envI`. -/
theorem stream_offset_in_session_inst :
    (buildStreams evsA 0 recA [recA, recB]).map (·.offset) =
      [recA, recB].map (fun x => x.startedAt - recA.startedAt) ∧
    0 ≤ recB.startedAt - recA.startedAt ∧
    (recB.startedAt = recA.startedAt →
      recB.startedAt - recA.startedAt = 0) ∧
    Effect.createTask mgA.id (buildStreams evsA 0 recA [recA, recB])
        (hostStreamId envI.updatedClass.host [recA, recB]) ∈
      (handle_adjust mgA envI (RoomAdjustResult.success 100 200 [])).1 :=
  stream_offset_in_session evsA 0 [recA, recB] recA recB mgA envI 100 200 []
    (by decide) (by decide) rfl rfl rfl

/-- C6 counterexample: `handle_upload` on one ready track with a failing
room-adjustment call returns a failure, yet the track's Recording row has
been persisted (the insert transaction committed before the external
call): the stage is not atomic in its side effects. -/
theorem handle_upload_not_atomic_cex :
    isErr (handle_upload mgA [rtcU1] false).2 = true ∧
    applyTrace 0 [] (handle_upload mgA [rtcU1] false).1 = [rowU1] ∧
    applyTrace 0 [] (handle_upload mgA [rtcU1] false).1 ≠ [] := by
  refine ⟨rfl, rfl, ?_⟩
  have h2 : applyTrace 0 [] (handle_upload mgA [rtcU1] false).1 = [rowU1] :=
    rfl
  rw [h2]
  simp

/-- C6 amended: the multi-row Recording insert of `handle_upload` is a
single all-or-nothing transaction, and an empty track list fails with no
side effects; but the stage as a whole is not atomic: whenever the track
list is non-empty the insert effect is in the trace even when the handler
subsequently fails (for example because the room-adjustment external call
fails). -/
theorem handle_upload_insert_persists (m : Class)
    (rtcs : List RtcUploadReadyData) (ok : Bool) :
    (rtcs = [] →
      handle_upload m rtcs ok = ([], Except.error "Expected at least 1 RTC")) ∧
    (rtcs ≠ [] →
      Effect.insertRecordings m.id rtcs ∈ (handle_upload m rtcs ok).1) ∧
    (rtcs ≠ [] → ok = false → isErr (handle_upload m rtcs ok).2 = true) := by
  refine ⟨?_, ?_, ?_⟩
  · intro h; subst h; rfl
  · intro h
    unfold handle_upload
    rw [if_neg (by simpa [List.isEmpty_iff] using h)]
    cases minStartedAt rtcs with
    | none => simp
    | some startedAt =>
      cases build_adjust_segments rtcs with
      | error e => simp
      | ok segs => simp
  · intro h hok
    subst hok
    unfold handle_upload
    rw [if_neg (by simpa [List.isEmpty_iff] using h)]
    cases minStartedAt rtcs with
    | none => rfl
    | some startedAt =>
      cases build_adjust_segments rtcs with
      | error e => rfl
      | ok segs => rfl

/-- C6 amended witness: the amended statement applied to the concrete
class `mgA` with the single track `rtcU1` and a failing adjustment call. -/
theorem handle_upload_insert_persists_inst :
    Effect.insertRecordings mgA.id [rtcU1] ∈
      (handle_upload mgA [rtcU1] false).1 ∧
    isErr (handle_upload mgA [rtcU1] false).2 = true := by
  have h := handle_upload_insert_persists mgA [rtcU1] false
  exact ⟨h.2.1 (by decide), h.2.2 (by decide) rfl⟩

/-- C7: on a `Success` transcoding result whose duration string parses,
`handle_transcoding_completion` parses it as a decimal seconds value
rounded to the nearest integer (half away from zero), marks every Recording
of the class transcoded, and publishes exactly one broadcast
`minigroup.ready` event carrying id, scope, tags, `status = "success"` and
the rounded `recording_duration` to the class's audience-level event topic;
`"3000.0"` yields `recording_duration = 3000`. -/
theorem transcoding_completion_ready (m : Class) (d : String)
    (v : Nat × Nat × Nat) (hp : parseDecimal d = some v) :
    handle_transcoding_completion m (TaskCompleteResult.success d) =
      ([Effect.updateTranscoding m.id,
        Effect.publish (audienceTopic m) "minigroup.ready"],
       Except.ok (), some (readyPayload m v)) ∧
    readyPayload m v =
      { id := m.id, scope := m.scope, tags := m.tags, status := "success",
        recordingDuration := roundDecimal v } ∧
    (∀ (db : List Recording) (now : Int) (r : Recording),
      r ∈ applyTrace now db
        (handle_transcoding_completion m (TaskCompleteResult.success d)).1 →
      r.classId = m.id → r.transcodedAt = some now) ∧
    (parseDecimal "3000.0").map roundDecimal = some 3000 := by
  have htr : handle_transcoding_completion m (TaskCompleteResult.success d) =
      ([Effect.updateTranscoding m.id,
        Effect.publish (audienceTopic m) "minigroup.ready"],
       Except.ok (), some (readyPayload m v)) := by
    show (match parseDecimal d with
      | none => ([], Except.error "invalid float literal", none)
      | some v =>
        ([Effect.updateTranscoding m.id,
          Effect.publish (audienceTopic m) "minigroup.ready"],
         Except.ok (), some (readyPayload m v))) = _
    rw [hp]
  refine ⟨htr, rfl, ?_, by decide⟩
  intro db now r hr hc
  rw [htr] at hr
  have hfold : applyTrace now db
      [Effect.updateTranscoding m.id,
       Effect.publish (audienceTopic m) "minigroup.ready"] =
      db.map (fun x =>
        if x.classId = m.id then { x with transcodedAt := some now }
        else x) := rfl
  rw [hfold] at hr
  obtain ⟨r0, hr0, hf⟩ := List.mem_map.mp hr
  by_cases h0 : r0.classId = m.id
  · rw [if_pos h0] at hf
    rw [← hf]
  · rw [if_neg h0] at hf
    rw [← hf] at hc
    exact absurd hc h0

/-- C7 witness: the theorem at the concrete class `mgA` and duration string
`"3000.0"`, with the stored row `rowU1` of the class marked transcoded. -/
theorem transcoding_completion_ready_inst :
    handle_transcoding_completion mgA (TaskCompleteResult.success "3000.0") =
      ([Effect.updateTranscoding mgA.id,
        Effect.publish (audienceTopic mgA) "minigroup.ready"],
       Except.ok (), some (readyPayload mgA (3000, 0, 1))) ∧
    (readyPayload mgA (3000, 0, 1)).recordingDuration = 3000 ∧
    ({ rowU1 with transcodedAt := some (5 : Int) } : Recording).transcodedAt =
      some 5 := by
  have h := transcoding_completion_ready mgA "3000.0" (3000, 0, 1) (by decide)
  refine ⟨h.1, by rw [h.2.1]; decide, ?_⟩
  exact h.2.2.1 [rowU1] 5 { rowU1 with transcodedAt := some (5 : Int) }
    (by rw [h.1]; decide) (by decide)

/-- An element obtained from `getLast?` is a member of the list. -/
theorem getLast?_some_mem {α : Type} {l : List α} {q : α}
    (h : l.getLast? = some q) : q ∈ l := by
  obtain ⟨hne, hq⟩ :=
    List.mem_getLast?_eq_getLast (l := l) (x := q) (by rw [h]; rfl)
  rw [hq]
  exact List.getLast_mem hne

/-- The running minimum of `build_adjust_segments` only tracks the first
components of the fold state. -/
theorem adjustFold_fst (rtcs : List RtcUploadReadyData) :
    ∀ acc : Option Int × Option Int,
      (rtcs.foldl adjustFoldStep acc).1 =
        (firstStarts rtcs).foldl optMin acc.1 := by
  induction rtcs with
  | nil => intro acc; rfl
  | cons r rs ih =>
    intro acc
    simp only [List.foldl_cons, firstStarts, List.filterMap_cons]
    cases hf : firstStart? r with
    | none =>
      rw [ih]
      simp [adjustFoldStep, hf, firstStarts]
    | some s =>
      rw [ih]
      simp [adjustFoldStep, hf, firstStarts]

/-- The running maximum of `build_adjust_segments` only tracks the second
components of the fold state. -/
theorem adjustFold_snd (rtcs : List RtcUploadReadyData) :
    ∀ acc : Option Int × Option Int,
      (rtcs.foldl adjustFoldStep acc).2 =
        (lastStops rtcs).foldl optMax acc.2 := by
  induction rtcs with
  | nil => intro acc; rfl
  | cons r rs ih =>
    intro acc
    simp only [List.foldl_cons, lastStops, List.filterMap_cons]
    cases hf : lastStop? r with
    | none =>
      rw [ih]
      simp [adjustFoldStep, hf, lastStops]
    | some s =>
      rw [ih]
      simp [adjustFoldStep, hf, lastStops]

/-- Folding `optMin` from a seed yields the minimum of the seed and the
list. -/
theorem foldl_optMin_spec (l : List Int) :
    ∀ m0 : Int, ∃ m, l.foldl optMin (some m0) = some m ∧
      (m = m0 ∨ m ∈ l) ∧ m ≤ m0 ∧ ∀ x ∈ l, m ≤ x := by
  induction l with
  | nil =>
    intro m0
    exact ⟨m0, rfl, Or.inl rfl, le_refl _, by simp⟩
  | cons x xs ih =>
    intro m0
    by_cases hx : x < m0
    · obtain ⟨m, hm, hmem, hle, hall⟩ := ih x
      refine ⟨m, ?_, ?_, le_trans hle (le_of_lt hx), ?_⟩
      · simp only [List.foldl_cons, optMin, if_pos hx]
        exact hm
      · rcases hmem with h | h
        · exact Or.inr (List.mem_cons.mpr (Or.inl h))
        · exact Or.inr (List.mem_cons.mpr (Or.inr h))
      · intro y hy
        rcases List.mem_cons.mp hy with hy | hy
        · rw [hy]; exact hle
        · exact hall y hy
    · obtain ⟨m, hm, hmem, hle, hall⟩ := ih m0
      refine ⟨m, ?_, ?_, hle, ?_⟩
      · simp only [List.foldl_cons, optMin, if_neg hx]
        exact hm
      · rcases hmem with h | h
        · exact Or.inl h
        · exact Or.inr (List.mem_cons.mpr (Or.inr h))
      · intro y hy
        rcases List.mem_cons.mp hy with hy | hy
        · rw [hy]; exact le_trans hle (le_of_not_lt hx)
        · exact hall y hy

/-- Folding `optMax` from a seed yields the maximum of the seed and the
list. -/
theorem foldl_optMax_spec (l : List Int) :
    ∀ m0 : Int, ∃ m, l.foldl optMax (some m0) = some m ∧
      (m = m0 ∨ m ∈ l) ∧ m0 ≤ m ∧ ∀ x ∈ l, x ≤ m := by
  induction l with
  | nil =>
    intro m0
    exact ⟨m0, rfl, Or.inl rfl, le_refl _, by simp⟩
  | cons x xs ih =>
    intro m0
    by_cases hx : x > m0
    · obtain ⟨m, hm, hmem, hle, hall⟩ := ih x
      refine ⟨m, ?_, ?_, le_trans (le_of_lt hx) hle, ?_⟩
      · simp only [List.foldl_cons, optMax, if_pos hx]
        exact hm
      · rcases hmem with h | h
        · exact Or.inr (List.mem_cons.mpr (Or.inl h))
        · exact Or.inr (List.mem_cons.mpr (Or.inr h))
      · intro y hy
        rcases List.mem_cons.mp hy with hy | hy
        · rw [hy]; exact hle
        · exact hall y hy
    · obtain ⟨m, hm, hmem, hle, hall⟩ := ih m0
      refine ⟨m, ?_, ?_, hle, ?_⟩
      · simp only [List.foldl_cons, optMax, if_neg hx]
        exact hm
      · rcases hmem with h | h
        · exact Or.inl h
        · exact Or.inr (List.mem_cons.mpr (Or.inr h))
      · intro y hy
        rcases List.mem_cons.mp hy with hy | hy
        · rw [hy]; exact le_trans (le_of_not_lt hx) hle
        · exact hall y hy

/-- C2: `build_adjust_segments` over tracks with normal segments, at least
one of them non-empty, yields the single-element envelope
`[min_start, max_stop)` with `min_start` the smallest start among the
tracks' first segments and `max_stop` the largest stop among their last
segments; it fails when the track list is empty or no track has a segment;
on the two concrete tracks of the worked example it yields
`(0, 3_000_000)`. -/
theorem adjust_segments_envelope (rtcs : List RtcUploadReadyData) :
    ((∀ r ∈ rtcs, ∀ p ∈ r.segments, isNormal p = true) →
     (∃ r ∈ rtcs, r.segments ≠ []) →
     ∃ s t, build_adjust_segments rtcs =
         Except.ok [(SegBound.included s, SegBound.excluded t)] ∧
       s ∈ firstStarts rtcs ∧ (∀ x ∈ firstStarts rtcs, s ≤ x) ∧
       t ∈ lastStops rtcs ∧ (∀ x ∈ lastStops rtcs, x ≤ t)) ∧
    ((rtcs = [] ∨ ∀ r ∈ rtcs, r.segments = []) →
      isErr (build_adjust_segments rtcs) = true) ∧
    build_adjust_segments [rtcU1, rtcU2] =
      Except.ok [(SegBound.included 0, SegBound.excluded 3000000)] := by
  refine ⟨?_, ?_, rfl⟩
  · intro hnorm ⟨r, hr, hne⟩
    -- The witness track contributes to both candidate lists.
    obtain ⟨p, ps, hseg⟩ := List.exists_cons_of_ne_nil hne
    have hpmem : p ∈ r.segments := by rw [hseg]; exact List.mem_cons_self _ _
    obtain ⟨pa, pb⟩ := p
    have hfs : ∃ a, firstStart? r = some a := by
      have hn := hnorm r hr (pa, pb) hpmem
      cases pa <;> cases pb <;> simp [isNormal] at hn <;>
        exact ⟨_, by unfold firstStart?; rw [hseg]; rfl⟩
    obtain ⟨a, ha⟩ := hfs
    have hamem : a ∈ firstStarts rtcs :=
      List.mem_filterMap.mpr ⟨r, hr, ha⟩
    obtain ⟨q, hq⟩ :=
      Option.isSome_iff_exists.mp (List.getLast?_isSome.mpr hne)
    have hqmem : q ∈ r.segments := getLast?_some_mem hq
    obtain ⟨qa, qb⟩ := q
    have hls : ∃ b, lastStop? r = some b := by
      have hn := hnorm r hr (qa, qb) hqmem
      cases qa <;> cases qb <;> simp [isNormal] at hn <;>
        exact ⟨_, by unfold lastStop?; rw [hq]⟩
    obtain ⟨b, hb⟩ := hls
    have hbmem : b ∈ lastStops rtcs :=
      List.mem_filterMap.mpr ⟨r, hr, hb⟩
    -- Minimum over the non-empty list of first starts.
    obtain ⟨s0, fsRest, hfsEq⟩ :=
      List.exists_cons_of_ne_nil (List.ne_nil_of_mem hamem)
    obtain ⟨s, hsFold, hsMem0, hsLe0, hsAll0⟩ := foldl_optMin_spec fsRest s0
    have hsFold2 : (firstStarts rtcs).foldl optMin none = some s := by
      rw [hfsEq]; exact hsFold
    have hsMem : s ∈ firstStarts rtcs := by
      rw [hfsEq]
      rcases hsMem0 with h | h
      · exact h ▸ List.mem_cons_self _ _
      · exact List.mem_cons.mpr (Or.inr h)
    have hsAll : ∀ x ∈ firstStarts rtcs, s ≤ x := by
      intro x hx
      rw [hfsEq] at hx
      rcases List.mem_cons.mp hx with hx | hx
      · rw [hx]; exact hsLe0
      · exact hsAll0 x hx
    -- Maximum over the non-empty list of last stops.
    obtain ⟨t0, lsRest, hlsEq⟩ :=
      List.exists_cons_of_ne_nil (List.ne_nil_of_mem hbmem)
    obtain ⟨t, htFold, htMem0, htLe0, htAll0⟩ := foldl_optMax_spec lsRest t0
    have htFold2 : (lastStops rtcs).foldl optMax none = some t := by
      rw [hlsEq]; exact htFold
    have htMem : t ∈ lastStops rtcs := by
      rw [hlsEq]
      rcases htMem0 with h | h
      · exact h ▸ List.mem_cons_self _ _
      · exact List.mem_cons.mpr (Or.inr h)
    have htAll : ∀ x ∈ lastStops rtcs, x ≤ t := by
      intro x hx
      rw [hlsEq] at hx
      rcases List.mem_cons.mp hx with hx | hx
      · rw [hx]; exact htLe0
      · exact htAll0 x hx
    -- Assemble the fold result and reduce the match.
    have hfold : rtcs.foldl adjustFoldStep (none, none) = (some s, some t) := by
      refine Prod.ext ?_ ?_
      · rw [adjustFold_fst]; exact hsFold2
      · rw [adjustFold_snd]; exact htFold2
    refine ⟨s, t, ?_, hsMem, hsAll, htMem, htAll⟩
    unfold build_adjust_segments
    rw [hfold]
  · intro h
    rcases h with h | h
    · rw [h]; rfl
    · have h1 : firstStarts rtcs = [] :=
        List.filterMap_eq_nil_iff.mpr
          (fun r hr => by unfold firstStart?; rw [h r hr]; rfl)
      rcases hfold : rtcs.foldl adjustFoldStep (none, none) with ⟨c1, c2⟩
      have hc1 : c1 = none := by
        have hfst := adjustFold_fst rtcs (none, none)
        rw [hfold, h1] at hfst
        exact hfst
      subst hc1
      unfold build_adjust_segments
      rw [hfold]
      cases c2 <;> rfl

/-- C2 witness: the success branch applied to the two concrete tracks
`rtcU1` and `rtcU2` of the worked example. -/
theorem adjust_segments_envelope_inst :
    ∃ s t, build_adjust_segments [rtcU1, rtcU2] =
        Except.ok [(SegBound.included s, SegBound.excluded t)] ∧
      s ∈ firstStarts [rtcU1, rtcU2] ∧
      (∀ x ∈ firstStarts [rtcU1, rtcU2], s ≤ x) ∧
      t ∈ lastStops [rtcU1, rtcU2] ∧
      (∀ x ∈ lastStops [rtcU1, rtcU2], x ≤ t) :=
  (adjust_segments_envelope [rtcU1, rtcU2]).1 (by decide)
    ⟨rtcU1, by decide, by decide⟩

/-- C10 counterexample: on the recording `recA` (last recorded stop
3_000_000) and the single creator pin event `evEnd` whose translated time
is exactly 3_000_000 — strictly increasing and within the claimed closed
interval `[0, 3_000_000]` — the builder emits the zero-length segment
`[3_000_000, 3_000_000)`, so some emitted stop is not strictly greater
than its start. -/
theorem pin_segments_invariant_cex :
    List.Pairwise (· < ·) ([evEnd].map (translatedTime 0)) ∧
    (∀ t ∈ [evEnd].map (translatedTime 0), 0 ≤ t ∧ t ≤ 3000000) ∧
    recA.segments.getLast? =
      some (SegBound.included 0, SegBound.excluded 3000000) ∧
    buildPinSegments recA [evEnd] 0 = [(3000000, 3000000)] ∧
    ¬(∀ p ∈ buildPinSegments recA [evEnd] 0, p.1 < p.2) := by
  decide

/-- The forward pass of `build_stream` preserves `pinInv` over any event
suffix whose translated times are strictly increasing, above the current
bound and below the recording end. -/
theorem pinPass_fold_inv (creator : String) (off E : Int) :
    ∀ (events : List PinEvent) (b : Int)
      (st : List (Int × Int) × Option Int),
      pinInv E b st →
      List.Pairwise (· < ·) (events.map (translatedTime off)) →
      (∀ ev ∈ events,
        b < translatedTime off ev ∧ translatedTime off ev < E) →
      ∃ b2, pinInv E b2 (events.foldl (pinStep creator off) st) := by
  intro events
  induction events with
  | nil =>
    intro b st hinv _ _
    exact ⟨b, hinv⟩
  | cons ev evs ih =>
    intro b st hinv hpw hbnd
    simp only [List.foldl_cons]
    obtain ⟨hbt, htE⟩ := hbnd ev (List.mem_cons_self _ _)
    have hpw2 : List.Pairwise (· < ·) (evs.map (translatedTime off)) := by
      simp only [List.map_cons] at hpw
      exact (List.pairwise_cons.mp hpw).2
    have hlt : ∀ e2 ∈ evs,
        translatedTime off ev < translatedTime off e2 := by
      intro e2 he2
      simp only [List.map_cons] at hpw
      exact (List.pairwise_cons.mp hpw).1 _ (List.mem_map_of_mem _ he2)
    have hbnd2 : ∀ e2 ∈ evs,
        translatedTime off ev < translatedTime off e2 ∧
        translatedTime off e2 < E :=
      fun e2 he2 =>
        ⟨hlt e2 he2, (hbnd e2 (List.mem_cons.mpr (Or.inr he2))).2⟩
    obtain ⟨hstrict, hpws, hstop, hpin⟩ := hinv
    by_cases hcond : (ev.agentId == creator && st.2.isNone) = true
    · have hstep : pinStep creator off st ev =
          (st.1, some (translatedTime off ev)) := by
        unfold pinStep
        rw [if_pos hcond]
      rw [hstep]
      apply ih (translatedTime off ev) _ ?_ hpw2 hbnd2
      refine ⟨hstrict, hpws, ?_, ?_⟩
      · intro p hp
        exact le_of_lt (lt_of_le_of_lt (hstop p hp) hbt)
      · intro s hs
        injection hs with hs
        subst hs
        exact ⟨le_refl _, htE,
          fun p hp => le_of_lt (lt_of_le_of_lt (hstop p hp) hbt)⟩
    · cases hp2 : st.2 with
      | some s =>
        have hstep : pinStep creator off st ev =
            (st.1 ++ [(s, translatedTime off ev)], none) := by
          unfold pinStep
          rw [if_neg hcond]
          simp only [hp2]
        rw [hstep]
        obtain ⟨hsb, hsE, hsstop⟩ := hpin s hp2
        apply ih (translatedTime off ev) _ ?_ hpw2 hbnd2
        refine ⟨?_, ?_, ?_, ?_⟩
        · intro p hp
          rcases List.mem_append.mp hp with hp | hp
          · exact hstrict p hp
          · simp only [List.mem_singleton] at hp
            subst hp
            exact lt_of_le_of_lt hsb hbt
        · refine List.pairwise_append.mpr
            ⟨hpws, List.pairwise_singleton _ _, ?_⟩
          intro p hp q hq
          simp only [List.mem_singleton] at hq
          subst hq
          exact hsstop p hp
        · intro p hp
          rcases List.mem_append.mp hp with hp | hp
          · exact le_of_lt (lt_of_le_of_lt (hstop p hp) hbt)
          · simp only [List.mem_singleton] at hp
            subst hp
            exact le_refl _
        · intro s2 hs2
          simp at hs2
      | none =>
        have hstep : pinStep creator off st ev = st := by
          unfold pinStep
          rw [if_neg hcond]
          simp only [hp2]
        rw [hstep]
        apply ih b st ⟨hstrict, hpws, hstop, hpin⟩ hpw2
        intro e2 he2
        exact ⟨lt_trans hbt (hlt e2 he2), (hbnd2 e2 he2).2⟩

/-- C10 amended: for every recording whose last recorded segment stops at
`E` (an `Excluded` bound) and every event list whose translated times are
strictly increasing and lie within `[0, E)` — the half-open bound is what
the counterexample forces — the emitted pin segments are sorted ascending
by start, pairwise non-overlapping, and each stop is strictly greater than
its start. -/
theorem pin_segments_invariant (r : Recording) (events : List PinEvent)
    (off : Int) (bLast : SegBound) (E : Int)
    (hlast : r.segments.getLast? = some (bLast, SegBound.excluded E))
    (hpw : List.Pairwise (· < ·) (events.map (translatedTime off)))
    (hbnd : ∀ ev ∈ events,
      0 ≤ translatedTime off ev ∧ translatedTime off ev < E) :
    (∀ p ∈ buildPinSegments r events off, p.1 < p.2) ∧
    List.Pairwise (fun p q : Int × Int => p.2 ≤ q.1)
      (buildPinSegments r events off) ∧
    List.Pairwise (fun p q : Int × Int => p.1 < q.1)
      (buildPinSegments r events off) := by
  have hinv0 : pinInv E (-1) ([], none) := by
    refine ⟨by simp, List.Pairwise.nil, by simp, ?_⟩
    intro s hs
    simp at hs
  have hbnd1 : ∀ ev ∈ events,
      -1 < translatedTime off ev ∧ translatedTime off ev < E :=
    fun ev he =>
      ⟨lt_of_lt_of_le (by norm_num) (hbnd ev he).1, (hbnd ev he).2⟩
  obtain ⟨b2, hinv⟩ := pinPass_fold_inv r.createdBy off E events (-1)
    ([], none) hinv0 hpw hbnd1
  rcases hpass : pinPass r.createdBy off events with ⟨segs, pin⟩
  have hpasseq : events.foldl (pinStep r.createdBy off) ([], none) =
      (segs, pin) := hpass
  rw [hpasseq] at hinv
  obtain ⟨hstrict, hpws, hstop, hpin⟩ := hinv
  cases pin with
  | none =>
    have hout : buildPinSegments r events off = segs := by
      unfold buildPinSegments
      rw [hpass]
    rw [hout]
    exact ⟨hstrict, hpws,
      hpws.imp_of_mem (fun hp hq h => lt_of_lt_of_le (hstrict _ hp) h)⟩
  | some s =>
    obtain ⟨hsb, hsE, hsstop⟩ := hpin s rfl
    have hout : buildPinSegments r events off = segs ++ [(s, E)] := by
      unfold buildPinSegments
      rw [hpass, hlast]
    rw [hout]
    have hstrict2 : ∀ p ∈ segs ++ [(s, E)], p.1 < p.2 := by
      intro p hp
      rcases List.mem_append.mp hp with hp | hp
      · exact hstrict p hp
      · simp only [List.mem_singleton] at hp
        subst hp
        exact hsE
    have hpws2 : List.Pairwise (fun p q : Int × Int => p.2 ≤ q.1)
        (segs ++ [(s, E)]) := by
      refine List.pairwise_append.mpr
        ⟨hpws, List.pairwise_singleton _ _, ?_⟩
      intro p hp q hq
      simp only [List.mem_singleton] at hq
      subst hq
      exact hsstop p hp
    exact ⟨hstrict2, hpws2,
      hpws2.imp_of_mem (fun hp hq h => lt_of_lt_of_le (hstrict2 _ hp) h)⟩

/-- C10 amended witness: the invariant at the concrete recording `recA`
and the worked example's events, whose translated times 0, 1_200_000 and
1_500_000 all lie in `[0, 3_000_000)`. -/
theorem pin_segments_invariant_inst :
    (∀ p ∈ buildPinSegments recA evsA 0, p.1 < p.2) ∧
    List.Pairwise (fun p q : Int × Int => p.2 ≤ q.1)
      (buildPinSegments recA evsA 0) ∧
    List.Pairwise (fun p q : Int × Int => p.1 < q.1)
      (buildPinSegments recA evsA 0) :=
  pin_segments_invariant recA evsA 0 (SegBound.included 0) 3000000
    (by decide) (by decide) (by decide)

end Dispatcher
